import Mathlib

/-!
# Verification of the liar-game session engine

A shallow embedding of the socket server of the liar-game repository
(the room/game state machine: room lifecycle, round setup, the hint turn
loop, timer-driven expiry, vote tallying, the liar's final guess, scoring
and termination), together with proofs about the embedded operations.

Conventions of the embedding:
* JavaScript `null`/`undefined` fields become `Option` values.
* The in-place mutation of a `room` object becomes explicit state passing;
  the room registry (`rooms`) is an insertion-ordered association list, as
  JavaScript objects with string keys preserve insertion order.
* Socket emits (`updateRoom`, `error`, `gameStarted`, timer start/stop and
  the like) become an explicit list of `Effect`s returned by each handler.
* Calls to `Math.random()` become oracle parameters (`Nat` inputs reduced
  modulo the relevant length).  The rejection-sampling `while` loop that
  redraws the fool-mode decoy word until it differs from the first word is
  determinized by the standard skip encoding: the oracle picks one of the
  `n - 1` indices different from the first index.
* The word catalog `wordsData` (read from `words.json`, external to the
  engine) is a parameter `catalog : String → Option (List String)`;
  `none` models a key absent from the JSON object.
* A handler that would throw an uncaught exception (e.g. reading
  `.length` of `undefined`) returns `none`: the process dies and no
  successor state is observable.
-/

def HINT_TIMER_DURATION : Nat := 30
def VOTE_TIMER_DURATION : Nat := 20

/-- A player record: `{ id: socket.id, persistentId, name, score: 0 }`. -/
structure Player where
  id : String
  persistentId : String
  name : String
  score : Nat
deriving Repr, DecidableEq

/-- A hint entry `{ player, type, content }` as pushed by `submitHint` /
`handleTimeout`.  The `player` field is the result of a `find` over the
roster, hence an `Option`. -/
structure Hint where
  player : Option Player
  type : String
  content : String
deriving Repr, DecidableEq

/-- `room.voteResult = { mostVotedPlayer, isLiar }`. -/
structure VoteResult where
  mostVotedPlayer : Option Player
  isLiar : Bool
deriving Repr, DecidableEq

/-- `room.liarGuessResult = { guess, correct }`. -/
structure GuessResult where
  guess : String
  correct : Bool
deriving Repr, DecidableEq

/-- A chat message pushed by `sendMessage`. -/
structure ChatMessage where
  sender : String
  message : String
  timestamp : String
deriving Repr, DecidableEq

/-- The values of `room.gameState`. -/
inductive GamePhase where
  | waiting
  | playing
  | voting
  | liarGuess
  | roundOver
  | finished
deriving Repr, DecidableEq

/-- The room aggregate.  Field names follow the source; the five settings
fields are those written by `getDefaultRoomSettings` / `updateSettings`. -/
structure Room where
  roomId : String
  players : List Player
  hostId : String
  selectedCategories : List String
  targetScore : Nat
  gameMode : String
  liarGuessType : String
  hintType : String
  gameState : GamePhase
  word : Option String
  liarId : Option String
  turn : Option String
  hints : List Hint
  votes : List (String × String)
  voteResult : Option VoteResult
  liarGuessResult : Option GuessResult
  currentCategory : Option String
  liarGuessCards : List (Option String)
  messages : List ChatMessage
deriving Repr, DecidableEq

/-- The observable side effects of a handler (socket emits and timer
scheduling), in emission order. -/
inductive Effect where
  | updateRoom (roomId : String)
  | roomCreated (toId : String)
  | errorMsg (toId : String) (message : String)
  | gameStarted (toId : String) (role : String) (category : String) (word : Option String)
  | youWereTheLiar (toId : String)
  | newMessage (roomId : String) (msg : ChatMessage)
  | timerStart (roomId : String) (duration : Nat)
  | timerStop (roomId : String)
deriving Repr, DecidableEq

/-- `getDefaultRoomSettings()` (the settings fields only). -/
structure RoomSettings where
  selectedCategories : List String
  targetScore : Nat
  gameMode : String
  liarGuessType : String
  hintType : String
deriving Repr, DecidableEq

def getDefaultRoomSettings : RoomSettings :=
  { selectedCategories := ["영화"]
    targetScore := 5
    gameMode := "normal"
    liarGuessType := "text"
    hintType := "text" }

/-- Spreading a settings object over a room (`{ ...room, ...settings }`). -/
def applySettings (room : Room) (s : RoomSettings) : Room :=
  { room with
    selectedCategories := s.selectedCategories
    targetScore := s.targetScore
    gameMode := s.gameMode
    liarGuessType := s.liarGuessType
    hintType := s.hintType }

/-- `resetRoundState(room)`: wipes every round-scoped field and returns to
`waiting`.  The `stopTimer(room.roomId)` call (guarded by `room.roomId`
being truthy) is returned as an effect. -/
def resetRoundState (room : Room) : Room × List Effect :=
  ({ room with
      gameState := GamePhase.waiting
      word := none
      liarId := none
      turn := none
      hints := []
      votes := []
      voteResult := none
      liarGuessResult := none
      currentCategory := none
      liarGuessCards := []
      messages := [] },
   if room.roomId ≠ "" then [Effect.timerStop room.roomId] else [])

/-- `p.score += 1` applied to the first player matching `pid`
(the `find`-then-mutate idiom of the source). -/
def bumpScore : List Player → Option String → List Player
  | [], _ => []
  | p :: rest, pid =>
      if some p.id = pid then { p with score := p.score + 1 } :: rest
      else p :: bumpScore rest pid

/-- `endRound(roomId)`: `finished` when some player's score has reached
the target, else `roundOver`; broadcasts the room. -/
def endRound (room : Room) : Room × List Effect :=
  let winner := room.players.find? (fun p => decide (room.targetScore ≤ p.score))
  let room' := { room with
    gameState := if winner.isSome then GamePhase.finished else GamePhase.roundOver }
  (room', [Effect.updateRoom room'.roomId])

/-- First occurrences of a list of keys, in order — the key list of a
JavaScript object built by repeated `voteCounts[vote] = ...` updates. -/
def dedupFirst (l : List String) : List String :=
  l.foldl (fun acc x => if x ∈ acc then acc else acc ++ [x]) []

/-- `votesToTally`: the cast votes if any, otherwise one synthesized vote
for `allPlayers[Math.floor(Math.random() * allPlayers.length)]` (with an
empty roster the JavaScript index yields `undefined`, which becomes the
object key `"undefined"` when counted). -/
def votesToTally (room : Room) (rv : Nat) : List String :=
  let allPlayers := room.players.map (fun p => p.id)
  let votedPlayers := room.votes.map (fun v => v.2)
  if 0 < votedPlayers.length then votedPlayers
  else [(allPlayers[rv % max 1 allPlayers.length]?).getD "undefined"]

/-- `Object.keys(voteCounts).reduce((a, b) => voteCounts[a] > voteCounts[b] ? a : b)`:
a left fold over the keys in first-occurrence order, starting from the
first key; `none` when there are no votes at all (where the JavaScript
`reduce` would throw). -/
def mostVoted (l : List String) : Option String :=
  match dedupFirst l with
  | [] => none
  | k :: ks => some (ks.foldl (fun a b => if l.count b < l.count a then a else b) k)

/-- The card-mode decoy generation inside `tallyVotes`: all catalog words
different from the correct word, five of them, plus the correct word.  The
`sort(() => 0.5 - Math.random())` shuffles are permutations of the shown
lists and are modelled as the identity permutation (no claim concerns the
order of `liarGuessCards`). -/
def liarGuessCardsFor (categoryWords : List String) (word : Option String) :
    List (Option String) :=
  let decoys := (categoryWords.map some).filter (fun w => w ≠ word)
  decoys.take 5 ++ [word]

/-- The outcome-and-scoring part of `tallyVotes`: compute the winner,
record `voteResult`, enter `liarGuess` and award the points. -/
def tallyCore (room : Room) (rv : Nat) : Room :=
  let mostVotedId := (mostVoted (votesToTally room rv)).getD ""
  let mostVotedPlayer := room.players.find? (fun p => p.id = mostVotedId)
  let isLiar : Bool := some mostVotedId = room.liarId
  let room1 := { room with
    voteResult := some { mostVotedPlayer := mostVotedPlayer, isLiar := isLiar }
    gameState := GamePhase.liarGuess }
  if isLiar then
    { room1 with players := room1.players.map (fun (p : Player) =>
        if some p.id ≠ room1.liarId then { p with score := p.score + 1 } else p) }
  else
    { room1 with players := bumpScore room1.players room1.liarId }

/-- The card-mode step of `tallyVotes`: `none` when the source would
throw (`wordsData[room.currentCategory]` undefined). -/
def addGuessCards (catalog : String → Option (List String)) (room : Room) :
    Option Room :=
  if room.liarGuessType = "card" then
    match room.currentCategory.bind catalog with
    | none => none
    | some categoryWords =>
        some { room with liarGuessCards := liarGuessCardsFor categoryWords room.word }
  else some room

/-- `tallyVotes(roomId)`.  `rv` is the oracle for the zero-vote fallback
pick; `connected` tells which socket ids are currently connected (the
`io.sockets.sockets.get` lookups). -/
def tallyVotes (catalog : String → Option (List String)) (connected : String → Bool)
    (rv : Nat) (room : Room) : Option (Room × List Effect) :=
  if room.gameState ≠ GamePhase.voting then some (room, [])
  else
    match addGuessCards catalog (tallyCore room rv) with
    | none => none
    | some room3 =>
        let liarEff :=
          match room3.liarId with
          | some lid => if connected lid then [Effect.youWereTheLiar lid] else []
          | none => []
        some (room3, liarEff ++ [Effect.updateRoom room3.roomId])

/-- The turn-advance computation shared by `submitHint` and the hint
timeout: `(room.players.findIndex(...) + 1) % room.players.length`.  A
missing index (`findIndex` = `-1`) advances to index `0`, as `(-1 + 1) % n
= 0` in JavaScript. -/
def nextTurnIndex (room : Room) (idx : Option Nat) : Nat :=
  match idx with
  | some i => (i + 1) % room.players.length
  | none => 0

/-- `handleTimeout(roomId, 'hint')` on a room in phase `playing`: record
an empty text hint on behalf of the current turn-holder (when present in
the roster), advance the turn, and either move to `voting` with the vote
timer or restart the hint timer. -/
def hintTimeout (room : Room) : Room × List Effect :=
  let currentPlayer := room.players.find? (fun p => some p.id = room.turn)
  let room1 :=
    match currentPlayer with
    | some cp => { room with hints := room.hints ++ [({ player := some cp, type := "text", content := "" } : Hint)] }
    | none => room
  let idx := room1.players.findIdx? (fun p => some p.id = room1.turn)
  let room2 : Room := { room1 with
    turn := (room1.players[nextTurnIndex room1 idx]?).map (fun p => p.id) }
  if room2.hints.length = room2.players.length then
    let room3 := { room2 with gameState := GamePhase.voting, turn := none }
    (room3, [Effect.timerStart room3.roomId VOTE_TIMER_DURATION, Effect.updateRoom room3.roomId])
  else
    (room2, [Effect.timerStart room2.roomId HINT_TIMER_DURATION, Effect.updateRoom room2.roomId])

/-- `handleTimeout(roomId, phase)` for a single room. -/
def handleTimeout (catalog : String → Option (List String)) (connected : String → Bool)
    (rv : Nat) (room : Room) (phase : String) : Option (Room × List Effect) :=
  if phase = "hint" ∧ room.gameState = GamePhase.playing then
    some (hintTimeout room)
  else if phase = "vote" ∧ room.gameState = GamePhase.voting then
    tallyVotes catalog connected rv room
  else
    some (room, [])

/-- `createPlayer(name)`. -/
def createPlayer (senderId pid name : String) : Player :=
  { id := senderId, persistentId := pid, name := name, score := 0 }

/-- The room literal built by `createRoom`: the default settings spread
over the fields of `resetRoundState({ roomId })`. -/
def initialRoom (newRoomId : String) (player : Player) (senderId : String) : Room :=
  { roomId := newRoomId
    players := [player]
    hostId := senderId
    selectedCategories := getDefaultRoomSettings.selectedCategories
    targetScore := getDefaultRoomSettings.targetScore
    gameMode := getDefaultRoomSettings.gameMode
    liarGuessType := getDefaultRoomSettings.liarGuessType
    hintType := getDefaultRoomSettings.hintType
    gameState := GamePhase.waiting
    word := none
    liarId := none
    turn := none
    hints := []
    votes := []
    voteResult := none
    liarGuessResult := none
    currentCategory := none
    liarGuessCards := []
    messages := [] }

/-- The optional fields of an `updateSettings` payload.  A JavaScript
truthiness check guards each assignment: `targetScore = 0`, an empty
`gameMode` / `liarGuessType` / `hintType` string are falsy and ignored;
an empty `selectedCategories` array is truthy and is applied. -/
structure NewSettings where
  selectedCategories : Option (List String)
  targetScore : Option Nat
  gameMode : Option String
  liarGuessType : Option String
  hintType : Option String
deriving Repr, DecidableEq

/-- `updateSettings` on a single room. -/
def updateSettingsRoom (room : Room) (senderId : String) (ns : NewSettings) :
    Room × List Effect :=
  if room.hostId ≠ senderId ∨ room.gameState ≠ GamePhase.waiting then (room, [])
  else
    let room := { room with selectedCategories :=
      match ns.selectedCategories with
      | some cs => cs
      | none => room.selectedCategories }
    let room := { room with targetScore :=
      match ns.targetScore with
      | some t => if t ≠ 0 then t else room.targetScore
      | none => room.targetScore }
    let room := { room with gameMode :=
      match ns.gameMode with
      | some m => if m ≠ "" then m else room.gameMode
      | none => room.gameMode }
    let room := { room with liarGuessType :=
      match ns.liarGuessType with
      | some m => if m ≠ "" then m else room.liarGuessType
      | none => room.liarGuessType }
    let room := { room with hintType :=
      match ns.hintType with
      | some m => if m ≠ "" then m else room.hintType
      | none => room.hintType }
    (room, [Effect.updateRoom room.roomId])

/-- `joinRoom` on an existing room. -/
def joinRoomRoom (room : Room) (senderId pid name : String) : Room × List Effect :=
  if room.gameState ≠ GamePhase.waiting then
    (room, [Effect.errorMsg senderId "이미 시작된 게임입니다."])
  else
    let room := { room with players := room.players ++ [createPlayer senderId pid name] }
    (room, [Effect.updateRoom room.roomId])

/-- `reconnectPlayer` on an existing room: rebind the transport id of the
player matching `persistentId`; host identity travels with the player. -/
def reconnectPlayerRoom (room : Room) (senderId persistentId : String) :
    Room × List Effect :=
  match room.players.find? (fun p => p.persistentId = persistentId) with
  | none => (room, [Effect.errorMsg senderId "재접속에 실패했습니다. 플레이어를 찾을 수 없습니다."])
  | some oldPlayer =>
      let wasHost := room.hostId = oldPlayer.id
      let players' := room.players.map (fun p =>
        if p.persistentId = persistentId then { p with id := senderId } else p)
      let room := { room with
        players := players'
        hostId := if wasHost then senderId else room.hostId }
      (room, [Effect.updateRoom room.roomId])

/-- `startGame` on a single room.  Oracles: `rc` category pick, `rl` liar
pick, `rw1` first word pick, `rw2` decoy pick (skip encoding over the
indices different from the first), `rt` first-turn pick.  Returns `none`
when the source would throw: the selected category is `undefined` (empty
`selectedCategories`) or absent from the catalog, making
`categoryWords.length` a read on `undefined`. -/
def startGame (catalog : String → Option (List String)) (connected : String → Bool)
    (rc rl rw1 rw2 rt : Nat) (room : Room) (senderId : String) :
    Option (Room × List Effect) :=
  if room.hostId ≠ senderId then some (room, [])
  else if room.players.length < 2 then
    some (room, [Effect.errorMsg senderId "최소 2명의 플레이어가 필요합니다."])
  else
    let (room0, effs0) := resetRoundState room
    let room1 := { room0 with gameState := GamePhase.playing }
    match room1.selectedCategories[rc % max 1 room1.selectedCategories.length]? with
    | none => none
    | some currentCategory =>
        let room2 := { room1 with currentCategory := some currentCategory }
        let liarId := (room2.players[rl % max 1 room2.players.length]?).map (fun p => p.id)
        let room3 := { room2 with liarId := liarId }
        match catalog currentCategory with
        | none => none
        | some categoryWords =>
            let fool := room3.gameMode = "fool" ∧ 1 < categoryWords.length
            let wordIndex1 := rw1 % max 1 categoryWords.length
            let citizenWord := categoryWords[wordIndex1]?
            let liarWord : Option String :=
              if fool then
                let j := rw2 % (categoryWords.length - 1)
                categoryWords[if j < wordIndex1 then j else j + 1]?
              else none
            let room4 := { room3 with word := citizenWord }
            let room5 := { room4 with
              turn := (room4.players[rt % max 1 room4.players.length]?).map (fun p => p.id) }
            let reveals := room5.players.filterMap (fun p =>
              if connected p.id then
                let isLiar : Bool := some p.id = room5.liarId
                if room5.gameMode = "fool" then
                  some (Effect.gameStarted p.id "Citizen" currentCategory
                    (if isLiar then liarWord else citizenWord))
                else
                  some (Effect.gameStarted p.id (if isLiar then "Liar" else "Citizen")
                    currentCategory (if isLiar then none else citizenWord))
              else none)
            some (room5,
              effs0 ++ reveals ++
                [Effect.timerStart room5.roomId HINT_TIMER_DURATION,
                 Effect.updateRoom room5.roomId])

/-- `submitHint` on a single room. -/
def submitHintRoom (room : Room) (senderId hintKind hintContent : String) :
    Room × List Effect :=
  if room.gameState ≠ GamePhase.playing ∨ room.turn ≠ some senderId then (room, [])
  else
    let player := room.players.find? (fun p => p.id = senderId)
    let room1 := { room with
      hints := room.hints ++ [({ player := player, type := hintKind, content := hintContent } : Hint)] }
    let idx := room1.players.findIdx? (fun p => p.id = senderId)
    let room2 : Room := { room1 with
      turn := (room1.players[nextTurnIndex room1 idx]?).map (fun p => p.id) }
    if room2.hints.length = room2.players.length then
      let room3 := { room2 with gameState := GamePhase.voting, turn := none }
      (room3, [Effect.timerStop room3.roomId,
               Effect.timerStart room3.roomId VOTE_TIMER_DURATION,
               Effect.updateRoom room3.roomId])
    else
      (room2, [Effect.timerStart room2.roomId HINT_TIMER_DURATION,
               Effect.updateRoom room2.roomId])

/-- `room.votes[socket.id] = votedPlayerId` on an insertion-ordered map. -/
def upsertVote : List (String × String) → String → String → List (String × String)
  | [], k, v => [(k, v)]
  | (k', v') :: rest, k, v =>
      if k' = k then (k, v) :: rest else (k', v') :: upsertVote rest k v

/-- The truthiness test `room.votes[socket.id]`: present and non-empty
(an empty-string vote value is falsy and does not block re-voting). -/
def hasTruthyVote (votes : List (String × String)) (k : String) : Bool :=
  match votes.find? (fun e => e.1 = k) with
  | some e => e.2 ≠ ""
  | none => false

/-- `submitVote` on a single room. -/
def submitVoteRoom (catalog : String → Option (List String)) (connected : String → Bool)
    (rv : Nat) (room : Room) (senderId votedPlayerId : String) :
    Option (Room × List Effect) :=
  if room.gameState ≠ GamePhase.voting ∨ hasTruthyVote room.votes senderId then
    some (room, [])
  else
    let room1 := { room with votes := upsertVote room.votes senderId votedPlayerId }
    if room1.votes.length = room1.players.length then
      match tallyVotes catalog connected rv room1 with
      | none => none
      | some (room2, effs) =>
          some (room2, Effect.timerStop room1.roomId :: effs)
    else
      some (room1, [Effect.updateRoom room1.roomId])

/-- `String.prototype.trim()`: strip leading and trailing whitespace
(modelled on the character list). -/
def jsTrim (s : String) : String :=
  ⟨((s.data.dropWhile Char.isWhitespace).reverse.dropWhile Char.isWhitespace).reverse⟩

/-- `String.prototype.toLowerCase()`, modelled per character. -/
def jsToLower (s : String) : String :=
  ⟨s.data.map Char.toLower⟩

/-- `submitLiarGuess` on a single room.  Returns `none` when the source
would throw (`room.word.toLowerCase()` with `room.word` null). -/
def submitLiarGuessRoom (room : Room) (senderId guess : String) :
    Option (Room × List Effect) :=
  if room.gameState ≠ GamePhase.liarGuess ∨ some senderId ≠ room.liarId then
    some (room, [])
  else
    match room.word with
    | none => none
    | some w =>
        let correctGuess : Bool := jsToLower (jsTrim guess) = jsToLower w
        let room1 :=
          if correctGuess then { room with players := bumpScore room.players room.liarId }
          else room
        let room2 := { room1 with
          liarGuessResult := some { guess := guess, correct := correctGuess } }
        some (endRound room2)

/-- `sendMessage` on a single room (`ts` is the environment-supplied
timestamp). -/
def sendMessageRoom (room : Room) (senderId msg ts : String) : Room × List Effect :=
  match room.players.find? (fun p => p.id = senderId) with
  | none => (room, [])
  | some player =>
      let m : ChatMessage := { sender := player.name, message := msg, timestamp := ts }
      ({ room with messages := room.messages ++ [m] },
       [Effect.newMessage room.roomId m])

/-- `restartGame` on a single room: host-only; zero all scores, then
`{ ...room, ...resetRoundState(room), ...getDefaultRoomSettings() }` —
round state wiped and the five settings fields overwritten with the
defaults. -/
def restartGameRoom (room : Room) (senderId : String) : Room × List Effect :=
  if room.hostId ≠ senderId then (room, [])
  else
    let room1 := { room with players := room.players.map (fun (p : Player) => { p with score := 0 }) }
    let (room2, effs) := resetRoundState room1
    let room3 := applySettings room2 getDefaultRoomSettings
    (room3, effs ++ [Effect.updateRoom room3.roomId])

/-- The room registry: an insertion-ordered association list keyed by
room id (JavaScript object key order). -/
abbrev Rooms := List (String × Room)

/-- `rooms[roomId]` lookup. -/
def getRoom (rooms : Rooms) (roomId : String) : Option Room :=
  (rooms.find? (fun e => e.1 = roomId)).map (fun e => e.2)

/-- `rooms[roomId] = room`: replace in place, or append a new key. -/
def setRoom : Rooms → String → Room → Rooms
  | [], roomId, room => [(roomId, room)]
  | (k, r) :: rest, roomId, room =>
      if k = roomId then (roomId, room) :: rest
      else (k, r) :: setRoom rest roomId room

/-- `delete rooms[roomId]`. -/
def delRoom (rooms : Rooms) (roomId : String) : Rooms :=
  rooms.filter (fun e => e.1 ≠ roomId)

/-- The grace-period expiry of a `disconnect`: remove the player bound to
`socketId` from the (first) room holding it, destroy the room when it
empties, and transfer the host role to roster index 0 when the host
left. -/
def disconnectExpire (rooms : Rooms) (socketId : String) : Rooms × List Effect :=
  match rooms.find? (fun e => e.2.players.any (fun p => p.id = socketId)) with
  | none => (rooms, [])
  | some (rid, room) =>
      match room.players.find? (fun p => p.id = socketId) with
      | none => (rooms, [])
      | some _ =>
          let players' := room.players.filter (fun p => p.id ≠ socketId)
          if players'.length = 0 then (delRoom rooms rid, [])
          else
            let newHost :=
              if room.hostId = socketId then
                match players' with
                | p :: _ => p.id
                | [] => room.hostId
              else room.hostId
            let room' := { room with players := players', hostId := newHost }
            (setRoom rooms rid room', [Effect.updateRoom rid])

/-- A player- or timer-driven event, with the oracle values its handler
consumes (fresh random ids, random indices, timestamps). -/
inductive Intent where
  | createRoom (newRoomId pid senderId name : String)
  | updateSettings (roomId senderId : String) (ns : NewSettings)
  | joinRoom (roomId pid senderId name : String)
  | reconnectPlayer (roomId persistentId senderId : String)
  | startGame (roomId senderId : String) (rc rl rw1 rw2 rt : Nat)
  | submitHint (roomId senderId hintKind hintContent : String)
  | submitVote (roomId senderId votedPlayerId : String) (rv : Nat)
  | submitLiarGuess (roomId senderId guess : String)
  | sendMessage (roomId senderId msg ts : String)
  | restartGame (roomId senderId : String)
  | hintTimerFired (roomId : String)
  | voteTimerFired (roomId : String) (rv : Nat)
  | disconnectExpired (socketId : String)
deriving Repr, DecidableEq

/-- Lift a per-room handler to the registry: missing room means the
source returned without touching anything. -/
def onRoom (rooms : Rooms) (roomId : String) (f : Room → Room × List Effect) :
    Rooms × List Effect :=
  match getRoom rooms roomId with
  | none => (rooms, [])
  | some room => (setRoom rooms roomId (f room).1, (f room).2)

/-- Lift a per-room handler that may crash. -/
def onRoom? (rooms : Rooms) (roomId : String) (f : Room → Option (Room × List Effect)) :
    Option (Rooms × List Effect) :=
  match getRoom rooms roomId with
  | none => some (rooms, [])
  | some room =>
      match f room with
      | none => none
      | some res => some (setRoom rooms roomId res.1, res.2)

/-- A missing-room `joinRoom` emits a room-not-found error. -/
def joinRoomStep (rooms : Rooms) (roomId pid senderId name : String) :
    Rooms × List Effect :=
  match getRoom rooms roomId with
  | none => (rooms, [Effect.errorMsg senderId "방을 찾을 수 없습니다."])
  | some room =>
      (setRoom rooms roomId (joinRoomRoom room senderId pid name).1,
       (joinRoomRoom room senderId pid name).2)

/-- One dispatch of the socket server: deliver an intent (or a timer
callback) to the registry.  `none` models an uncaught exception killing
the process. -/
def step (catalog : String → Option (List String)) (connected : String → Bool)
    (rooms : Rooms) : Intent → Option (Rooms × List Effect)
  | Intent.createRoom newRoomId pid senderId name =>
      let room := initialRoom newRoomId (createPlayer senderId pid name) senderId
      some (setRoom rooms newRoomId room,
        (if newRoomId ≠ "" then [Effect.timerStop newRoomId] else []) ++
          [Effect.roomCreated senderId])
  | Intent.updateSettings roomId senderId ns =>
      some (onRoom rooms roomId (fun room => updateSettingsRoom room senderId ns))
  | Intent.joinRoom roomId pid senderId name =>
      some (joinRoomStep rooms roomId pid senderId name)
  | Intent.reconnectPlayer roomId persistentId senderId =>
      some (onRoom rooms roomId (fun room => reconnectPlayerRoom room senderId persistentId))
  | Intent.startGame roomId senderId rc rl rw1 rw2 rt =>
      onRoom? rooms roomId (fun room => startGame catalog connected rc rl rw1 rw2 rt room senderId)
  | Intent.submitHint roomId senderId hintKind hintContent =>
      some (onRoom rooms roomId (fun room => submitHintRoom room senderId hintKind hintContent))
  | Intent.submitVote roomId senderId votedPlayerId rv =>
      onRoom? rooms roomId (fun room => submitVoteRoom catalog connected rv room senderId votedPlayerId)
  | Intent.submitLiarGuess roomId senderId guess =>
      onRoom? rooms roomId (fun room => submitLiarGuessRoom room senderId guess)
  | Intent.sendMessage roomId senderId msg ts =>
      some (onRoom rooms roomId (fun room => sendMessageRoom room senderId msg ts))
  | Intent.restartGame roomId senderId =>
      some (onRoom rooms roomId (fun room => restartGameRoom room senderId))
  | Intent.hintTimerFired roomId =>
      onRoom? rooms roomId (fun room => handleTimeout catalog connected 0 room "hint")
  | Intent.voteTimerFired roomId rv =>
      onRoom? rooms roomId (fun room => handleTimeout catalog connected rv room "vote")
  | Intent.disconnectExpired socketId =>
      some (disconnectExpire rooms socketId)

/-- Registry states reachable from the empty registry through the intent
and timeout handlers.  Each step may see its own set of connected
sockets; allowing timer callbacks to fire at any moment over-approximates
every real schedule. -/
inductive Reachable (catalog : String → Option (List String)) : Rooms → Prop where
  | init : Reachable catalog []
  | next {rooms rooms' : Rooms} {connected : String → Bool} {i : Intent}
      {effs : List Effect} :
      Reachable catalog rooms →
      step catalog connected rooms i = some (rooms', effs) →
      Reachable catalog rooms'

/-! ## Registry lemmas -/

theorem setRoom_self (rooms : Rooms) (roomId : String) (room : Room)
    (h : getRoom rooms roomId = some room) : setRoom rooms roomId room = rooms := by
  induction rooms with
  | nil => simp [getRoom] at h
  | cons e rest ih =>
    obtain ⟨k, r⟩ := e
    by_cases hk : k = roomId
    · subst hk
      unfold getRoom at h
      rw [List.find?_cons_of_pos _ (by simp)] at h
      simp only [Option.map_some'] at h
      injection h with h
      subst h
      simp [setRoom]
    · unfold getRoom at h
      rw [List.find?_cons_of_neg _ (by simp [hk])] at h
      simp only [setRoom, if_neg hk]
      have : getRoom rest roomId = some room := h
      rw [ih this]

theorem getRoom_mem (rooms : Rooms) (roomId : String) (room : Room)
    (h : getRoom rooms roomId = some room) : (roomId, room) ∈ rooms := by
  unfold getRoom at h
  cases hf : rooms.find? (fun e => e.1 = roomId) with
  | none => rw [hf] at h; simp at h
  | some e =>
    rw [hf] at h
    simp only [Option.map_some'] at h
    have hmem := List.mem_of_find?_eq_some hf
    have hkey := List.find?_some hf
    simp only [decide_eq_true_eq] at hkey
    obtain ⟨k, r⟩ := e
    simp only at hkey h
    injection h with h
    subst hkey; subst h
    exact hmem

theorem mem_setRoom (rooms : Rooms) (roomId : String) (room : Room) (e : String × Room)
    (h : e ∈ setRoom rooms roomId room) : e = (roomId, room) ∨ e ∈ rooms := by
  induction rooms with
  | nil => simp [setRoom] at h; simp [h]
  | cons hd rest ih =>
    obtain ⟨k, r⟩ := hd
    simp only [setRoom] at h
    by_cases hk : k = roomId
    · rw [if_pos hk] at h
      rcases List.mem_cons.mp h with h1 | h1
      · exact Or.inl h1
      · exact Or.inr (List.mem_cons_of_mem _ h1)
    · rw [if_neg hk] at h
      rcases List.mem_cons.mp h with h1 | h1
      · exact Or.inr (h1 ▸ List.mem_cons_self _ _)
      · rcases ih h1 with h2 | h2
        · exact Or.inl h2
        · exact Or.inr (List.mem_cons_of_mem _ h2)

/-! ## Concrete fixtures used by witnesses and counterexamples -/

def playerA : Player := { id := "a", persistentId := "pa", name := "Alice", score := 0 }
def playerB : Player := { id := "b", persistentId := "pb", name := "Bob", score := 0 }
def playerC : Player := { id := "c", persistentId := "pc", name := "Carol", score := 0 }

/-- A three-word movie category plus a one-word category. -/
def demoCatalog : String → Option (List String) :=
  fun c => if c = "영화" then some ["사과", "바나나", "체리"]
    else if c = "단일" then some ["유일"] else none

def allConnected : String → Bool := fun _ => true

/-- A three-player room in the hint phase, Alice to move, Bob the liar. -/
def demoPlayingRoom : Room :=
  { initialRoom "R" playerA "a" with
    players := [playerA, playerB, playerC]
    gameState := GamePhase.playing
    word := some "사과"
    liarId := some "b"
    turn := some "a"
    currentCategory := some "영화" }

/-- The same room during voting. -/
def demoVotingRoom : Room :=
  { demoPlayingRoom with gameState := GamePhase.voting, turn := none }

/-- The same room during the liar-guess phase. -/
def demoGuessRoom : Room :=
  { demoPlayingRoom with gameState := GamePhase.liarGuess, turn := none }

/-- The playing room after Bob and Carol have already hinted: one more
hint completes the round. -/
def demoTwoHintsRoom : Room :=
  { demoPlayingRoom with hints :=
      [{ player := some playerB, type := "text", content := "hb" },
       { player := some playerC, type := "text", content := "hc" }] }

/-- C8 helper: the guard of `submitHint` in propositional form. -/
def submitHintValid (rooms : Rooms) (roomId senderId : String) : Prop :=
  ∃ room, getRoom rooms roomId = some room ∧
    room.gameState = GamePhase.playing ∧ room.turn = some senderId

/-- **C8.** A `submitHint` whose sender does not hold the turn, or that
arrives outside phase `playing`, or that names an unknown room, leaves
the whole registry unchanged and emits nothing — no broadcast, no error. -/
theorem submitHint_invalid_silent_noop (catalog : String → Option (List String))
    (connected : String → Bool) (rooms : Rooms)
    (roomId senderId hintKind hintContent : String)
    (h : ¬ submitHintValid rooms roomId senderId) :
    step catalog connected rooms (Intent.submitHint roomId senderId hintKind hintContent)
      = some (rooms, []) := by
  have hstep : step catalog connected rooms
      (Intent.submitHint roomId senderId hintKind hintContent)
      = some (onRoom rooms roomId
          (fun room => submitHintRoom room senderId hintKind hintContent)) := rfl
  rw [hstep]
  unfold onRoom
  cases hg : getRoom rooms roomId with
  | none => rfl
  | some room =>
    have hng : room.gameState ≠ GamePhase.playing ∨ room.turn ≠ some senderId := by
      by_contra hc
      push_neg at hc
      exact h ⟨room, hg, hc.1, hc.2⟩
    have hr : submitHintRoom room senderId hintKind hintContent = (room, []) := by
      unfold submitHintRoom
      rw [if_pos hng]
    simp only [hr, setRoom_self rooms roomId room hg]

/-- **C8 witness**: wrong-turn, wrong-phase and unknown-room instances. -/
theorem submitHint_invalid_silent_noop_witness :
    (step demoCatalog allConnected [("R", demoPlayingRoom)]
        (Intent.submitHint "R" "b" "text" "x") = some ([("R", demoPlayingRoom)], [])) ∧
    (step demoCatalog allConnected [("R", demoVotingRoom)]
        (Intent.submitHint "R" "a" "text" "x") = some ([("R", demoVotingRoom)], [])) ∧
    (step demoCatalog allConnected [("R", demoPlayingRoom)]
        (Intent.submitHint "NOPE" "a" "text" "x") = some ([("R", demoPlayingRoom)], [])) := by
  refine ⟨?_, ?_, ?_⟩
  · exact submitHint_invalid_silent_noop demoCatalog allConnected _ "R" "b" "text" "x"
      (by rintro ⟨room, hg, hph, hturn⟩
          obtain rfl : demoPlayingRoom = room := by simpa [getRoom] using hg
          exact absurd hturn (by decide))
  · exact submitHint_invalid_silent_noop demoCatalog allConnected _ "R" "a" "text" "x"
      (by rintro ⟨room, hg, hph, hturn⟩
          obtain rfl : demoVotingRoom = room := by simpa [getRoom] using hg
          exact absurd hph (by decide))
  · exact submitHint_invalid_silent_noop demoCatalog allConnected _ "NOPE" "a" "text" "x"
      (by rintro ⟨room, hg, hph, hturn⟩
          simp [getRoom] at hg)

/-- **C6.** A valid `submitHint` (phase `playing`, sender holds the turn)
appends exactly one hint authored by the sender, advances the turn to the
next roster position with wrap-around, and moves to `voting` (turn
cleared, hint timer stopped, vote timer started) exactly when the hint
count then equals the player count; otherwise it stays in `playing` and
restarts the hint timer. -/
theorem submitHint_valid_behavior (room : Room) (senderId hintKind hintContent : String)
    (i : Nat) (p : Player)
    (hphase : room.gameState = GamePhase.playing)
    (hturn : room.turn = some senderId)
    (hfind : room.players.find? (fun q => q.id = senderId) = some p)
    (hidx : room.players.findIdx? (fun q => q.id = senderId) = some i) :
    (submitHintRoom room senderId hintKind hintContent).1.hints
        = room.hints ++ [{ player := some p, type := hintKind, content := hintContent }] ∧
    (submitHintRoom room senderId hintKind hintContent).1.players = room.players ∧
    (room.hints.length + 1 = room.players.length →
      (submitHintRoom room senderId hintKind hintContent).1.gameState = GamePhase.voting ∧
      (submitHintRoom room senderId hintKind hintContent).1.turn = none ∧
      (submitHintRoom room senderId hintKind hintContent).2
        = [Effect.timerStop room.roomId,
           Effect.timerStart room.roomId VOTE_TIMER_DURATION,
           Effect.updateRoom room.roomId]) ∧
    (room.hints.length + 1 ≠ room.players.length →
      (submitHintRoom room senderId hintKind hintContent).1.gameState = GamePhase.playing ∧
      (submitHintRoom room senderId hintKind hintContent).1.turn
        = (room.players[(i + 1) % room.players.length]?).map (fun q => q.id) ∧
      (submitHintRoom room senderId hintKind hintContent).2
        = [Effect.timerStart room.roomId HINT_TIMER_DURATION,
           Effect.updateRoom room.roomId]) := by
  have hguard : ¬ (room.gameState ≠ GamePhase.playing ∨ room.turn ≠ some senderId) := by
    push_neg
    exact ⟨hphase, hturn⟩
  unfold submitHintRoom
  rw [if_neg hguard]
  simp only [hfind, hidx, nextTurnIndex, List.length_append, List.length_cons,
    List.length_nil]
  by_cases hlen : room.hints.length + 1 = room.players.length
  · rw [if_pos (by simpa using hlen)]
    refine ⟨rfl, rfl, fun _ => ⟨rfl, rfl, rfl⟩, fun hne => absurd hlen hne⟩
  · rw [if_neg (by simpa using hlen)]
    exact ⟨rfl, rfl, fun heq => absurd heq hlen, fun _ => ⟨hphase, rfl, rfl⟩⟩

/-- **C6 witness**: Alice hints in a three-player room with no prior
hints (non-final branch), and in the same room with two prior hints
(final branch moving to `voting`). -/
theorem submitHint_valid_behavior_witness :
    ((submitHintRoom demoPlayingRoom "a" "text" "h1").1.hints
        = [{ player := some playerA, type := "text", content := "h1" }] ∧
     (submitHintRoom demoPlayingRoom "a" "text" "h1").1.turn = some "b" ∧
     (submitHintRoom demoPlayingRoom "a" "text" "h1").1.gameState = GamePhase.playing) ∧
    ((submitHintRoom demoTwoHintsRoom "a" "text" "h3").1.gameState = GamePhase.voting ∧
     (submitHintRoom demoTwoHintsRoom "a" "text" "h3").1.turn = none) := by
  have h1 := submitHint_valid_behavior demoPlayingRoom "a" "text" "h1" 0 playerA
    (by decide) (by decide) (by decide) (by decide)
  have h2 := submitHint_valid_behavior demoTwoHintsRoom "a" "text" "h3" 0 playerA
    (by decide) (by decide) (by decide) (by decide)
  have hne : demoPlayingRoom.hints.length + 1 ≠ demoPlayingRoom.players.length := by decide
  have heq : demoTwoHintsRoom.hints.length + 1 = demoTwoHintsRoom.players.length := by decide
  obtain ⟨ha, -, -, hb⟩ := h1
  obtain ⟨-, -, hc, -⟩ := h2
  refine ⟨⟨?_, ?_, (hb hne).1⟩, (hc heq).1, (hc heq).2.1⟩
  · rw [ha]; decide
  · rw [(hb hne).2.1]; decide

/-- **C7.** When the hint timer fires on a room in phase `playing`, an
empty hint is recorded on behalf of the current turn-holder and the turn
advances exactly as on a real submission: next roster position with
wrap-around, transition to `voting` exactly when the hint count then
equals the player count, and in either case the round continues (the
handler keeps the room in `playing` or moves it to `voting`, never
aborting the round). -/
theorem hintTimeout_behavior (catalog : String → Option (List String))
    (connected : String → Bool) (rv : Nat) (room : Room) (tid : String)
    (i : Nat) (p : Player)
    (hphase : room.gameState = GamePhase.playing)
    (hturn : room.turn = some tid)
    (hfind : room.players.find? (fun q => some q.id = room.turn) = some p)
    (hidx : room.players.findIdx? (fun q => some q.id = room.turn) = some i) :
    handleTimeout catalog connected rv room "hint" = some (hintTimeout room) ∧
    (hintTimeout room).1.hints
        = room.hints ++ [{ player := some p, type := "text", content := "" }] ∧
    (hintTimeout room).1.players = room.players ∧
    (room.hints.length + 1 = room.players.length →
      (hintTimeout room).1.gameState = GamePhase.voting ∧
      (hintTimeout room).1.turn = none ∧
      (hintTimeout room).2
        = [Effect.timerStart room.roomId VOTE_TIMER_DURATION,
           Effect.updateRoom room.roomId]) ∧
    (room.hints.length + 1 ≠ room.players.length →
      (hintTimeout room).1.gameState = GamePhase.playing ∧
      (hintTimeout room).1.turn
        = (room.players[(i + 1) % room.players.length]?).map (fun q => q.id) ∧
      (hintTimeout room).2
        = [Effect.timerStart room.roomId HINT_TIMER_DURATION,
           Effect.updateRoom room.roomId]) := by
  have hdispatch : handleTimeout catalog connected rv room "hint" = some (hintTimeout room) := by
    unfold handleTimeout
    rw [if_pos ⟨rfl, hphase⟩]
  refine ⟨hdispatch, ?_⟩
  unfold hintTimeout
  simp only [hfind, hidx, nextTurnIndex, List.length_append, List.length_cons,
    List.length_nil]
  by_cases hlen : room.hints.length + 1 = room.players.length
  · rw [if_pos (by simpa using hlen)]
    exact ⟨rfl, rfl, fun _ => ⟨rfl, rfl, rfl⟩, fun hne => absurd hlen hne⟩
  · rw [if_neg (by simpa using hlen)]
    exact ⟨rfl, rfl, fun heq => absurd heq hlen, fun _ => ⟨hphase, rfl, rfl⟩⟩

/-- **C7 witness**: the timer expires on Alice's turn with no prior hints
(round continues in `playing`), and with two prior hints (transition to
`voting`). -/
theorem hintTimeout_behavior_witness :
    ((hintTimeout demoPlayingRoom).1.hints
        = [{ player := some playerA, type := "text", content := "" }] ∧
     (hintTimeout demoPlayingRoom).1.turn = some "b" ∧
     (hintTimeout demoPlayingRoom).1.gameState = GamePhase.playing) ∧
    ((hintTimeout demoTwoHintsRoom).1.gameState = GamePhase.voting ∧
     (hintTimeout demoTwoHintsRoom).1.turn = none) ∧
    handleTimeout demoCatalog allConnected 0 demoPlayingRoom "hint"
      = some (hintTimeout demoPlayingRoom) := by
  have h1 := hintTimeout_behavior demoCatalog allConnected 0 demoPlayingRoom "a" 0 playerA
    (by decide) (by decide) (by decide) (by decide)
  have h2 := hintTimeout_behavior demoCatalog allConnected 0 demoTwoHintsRoom "a" 0 playerA
    (by decide) (by decide) (by decide) (by decide)
  have hne : demoPlayingRoom.hints.length + 1 ≠ demoPlayingRoom.players.length := by decide
  have heq : demoTwoHintsRoom.hints.length + 1 = demoTwoHintsRoom.players.length := by decide
  obtain ⟨hd, ha, -, -, hb⟩ := h1
  obtain ⟨-, -, -, hc, -⟩ := h2
  refine ⟨⟨?_, ?_, (hb hne).1⟩, ⟨(hc heq).1, (hc heq).2.1⟩, hd⟩
  · rw [ha]; decide
  · rw [(hb hne).2.1]; decide

/-! ## Vote-tallying lemmas -/

theorem dedupFirst_go_ne_nil (l acc : List String) (h : acc ≠ []) :
    l.foldl (fun acc x => if x ∈ acc then acc else acc ++ [x]) acc ≠ [] := by
  induction l generalizing acc with
  | nil => exact h
  | cons y ys ih =>
    simp only [List.foldl_cons]
    by_cases hy : y ∈ acc
    · rw [if_pos hy]; exact ih acc h
    · rw [if_neg hy]
      exact ih _ (by simp)

theorem dedupFirst_ne_nil (l : List String) (h : l ≠ []) : dedupFirst l ≠ [] := by
  cases l with
  | nil => exact absurd rfl h
  | cons x xs =>
    unfold dedupFirst
    simp only [List.foldl_cons, List.not_mem_nil, if_neg, List.nil_append]
    exact dedupFirst_go_ne_nil xs [x] (by simp)

theorem mostVoted_isSome (l : List String) (h : l ≠ []) :
    ∃ w, mostVoted l = some w := by
  unfold mostVoted
  cases hd : dedupFirst l with
  | nil => exact absurd hd (dedupFirst_ne_nil l h)
  | cons k ks => exact ⟨_, rfl⟩

theorem votesToTally_ne_nil (room : Room) (rv : Nat) : votesToTally room rv ≠ [] := by
  unfold votesToTally
  by_cases hv : 0 < (room.votes.map (fun v => v.2)).length
  · rw [if_pos hv]
    intro hnil
    rw [hnil] at hv
    simp at hv
  · rw [if_neg hv]
    simp

/-- With no votes cast, the synthesized singleton names a roster member
(the roster being non-empty). -/
theorem votesToTally_of_no_votes (room : Room) (rv : Nat)
    (hp : room.players ≠ []) (hv : room.votes = []) :
    ∃ p ∈ room.players, votesToTally room rv = [p.id] := by
  unfold votesToTally
  rw [hv]
  simp only [List.map_nil, List.length_nil]
  rw [if_neg (lt_irrefl 0)]
  have hlen : 0 < room.players.length := List.length_pos.mpr hp
  have hmax : max 1 (room.players.map (fun p => p.id)).length = room.players.length := by
    simp [List.length_map, Nat.max_eq_right hlen]
  have hidx : rv % max 1 (room.players.map (fun p => p.id)).length < room.players.length := by
    rw [hmax]
    exact Nat.mod_lt _ hlen
  refine ⟨room.players[rv % max 1 (room.players.map (fun p => p.id)).length], ?_, ?_⟩
  · exact List.getElem_mem _
  · rw [List.getElem?_map]
    rw [List.getElem?_eq_getElem hidx]
    rfl

theorem addGuessCards_fields (catalog : String → Option (List String))
    (room r : Room) (h : addGuessCards catalog room = some r) :
    r.gameState = room.gameState ∧ r.voteResult = room.voteResult ∧
    r.players = room.players ∧ r.word = room.word ∧ r.liarId = room.liarId ∧
    r.targetScore = room.targetScore ∧ r.roomId = room.roomId := by
  unfold addGuessCards at h
  split at h
  · split at h
    · exact absurd h (by simp)
    · injection h with h
      subst h
      exact ⟨rfl, rfl, rfl, rfl, rfl, rfl, rfl⟩
  · injection h with h
    subst h
    exact ⟨rfl, rfl, rfl, rfl, rfl, rfl, rfl⟩

theorem tallyCore_gameState (room : Room) (rv : Nat) :
    (tallyCore room rv).gameState = GamePhase.liarGuess := by
  unfold tallyCore
  dsimp only
  split <;> rfl

theorem tallyCore_voteResult (room : Room) (rv : Nat) :
    (tallyCore room rv).voteResult
      = some { mostVotedPlayer := room.players.find?
                 (fun p => p.id = (mostVoted (votesToTally room rv)).getD "")
               isLiar := decide (some ((mostVoted (votesToTally room rv)).getD "")
                 = room.liarId) } := by
  unfold tallyCore
  dsimp only
  split <;> rfl

theorem tallyCore_word (room : Room) (rv : Nat) :
    (tallyCore room rv).word = room.word := by
  unfold tallyCore
  dsimp only
  split <;> rfl

theorem tallyCore_players_caught (room : Room) (rv : Nat)
    (h : some ((mostVoted (votesToTally room rv)).getD "") = room.liarId) :
    (tallyCore room rv).players
      = room.players.map (fun p =>
          if some p.id ≠ room.liarId then { p with score := p.score + 1 } else p) := by
  unfold tallyCore
  dsimp only
  rw [if_pos (by simpa using h)]

theorem tallyCore_players_missed (room : Room) (rv : Nat)
    (h : some ((mostVoted (votesToTally room rv)).getD "") ≠ room.liarId) :
    (tallyCore room rv).players = bumpScore room.players room.liarId := by
  unfold tallyCore
  dsimp only
  rw [if_neg (by simpa using h)]

/-- In phase `voting`, a successful `tallyVotes` run is exactly the core
tally followed by the card step. -/
theorem tallyVotes_success (catalog : String → Option (List String))
    (connected : String → Bool) (rv : Nat) (room : Room)
    (hphase : room.gameState = GamePhase.voting) (r : Room) (effs : List Effect)
    (h : tallyVotes catalog connected rv room = some (r, effs)) :
    addGuessCards catalog (tallyCore room rv) = some r := by
  unfold tallyVotes at h
  rw [if_neg (by simp [hphase])] at h
  split at h
  · exact absurd h (by simp)
  · rename_i room3 hw
    injection h with h
    have hr : room3 = r := congrArg Prod.fst h
    rw [← hr]
    exact hw

/-- **C5.** On a round with a non-empty roster, tallying always yields
exactly one winning target — in particular, with zero cast votes exactly
one synthesized vote for some roster member is tallied — and a successful
run of `tallyVotes` records a vote result. -/
theorem tallyVotes_always_one_winner (catalog : String → Option (List String))
    (connected : String → Bool) (rv : Nat) (room : Room)
    (hphase : room.gameState = GamePhase.voting) (hp : room.players ≠ []) :
    (∃ w, mostVoted (votesToTally room rv) = some w) ∧
    (room.votes = [] → ∃ p ∈ room.players, votesToTally room rv = [p.id]) ∧
    (∀ r effs, tallyVotes catalog connected rv room = some (r, effs) →
      r.voteResult.isSome) := by
  refine ⟨mostVoted_isSome _ (votesToTally_ne_nil room rv),
    fun hv => votesToTally_of_no_votes room rv hp hv, fun r effs h => ?_⟩
  have hcards := tallyVotes_success catalog connected rv room hphase r effs h
  have hfields := addGuessCards_fields catalog (tallyCore room rv) r hcards
  rw [hfields.2.1, tallyCore_voteResult]
  rfl

/-- **C5 witness**: the demo voting room with zero votes; index oracle 1
synthesizes the single vote `["b"]`, for roster member Bob, and a winner
exists. -/
theorem tallyVotes_always_one_winner_witness :
    (mostVoted (votesToTally demoVotingRoom 1)).isSome = true ∧
    votesToTally demoVotingRoom 1 = ["b"] ∧ playerB ∈ demoVotingRoom.players := by
  have h := tallyVotes_always_one_winner demoCatalog allConnected 1 demoVotingRoom
    (by decide) (by decide)
  obtain ⟨w, hw⟩ := h.1
  refine ⟨by rw [hw]; rfl, by decide, by decide⟩

theorem map_self_of_fixed {α : Type} (l : List α) (f : α → α)
    (h : ∀ x ∈ l, f x = x) : l.map f = l := by
  induction l with
  | nil => rfl
  | cons x xs ih =>
    simp only [List.map_cons, h x (List.mem_cons_self x xs)]
    rw [ih (fun y hy => h y (List.mem_cons_of_mem _ hy))]

/-- With roster transport ids pairwise distinct, the `find`-then-bump
idiom agrees with the pointwise description: exactly the (unique) player
matching `lid` gains one point. -/
theorem bumpScore_eq_map (ps : List Player) (lid : Option String)
    (hnd : (ps.map (fun p => p.id)).Nodup) :
    bumpScore ps lid
      = ps.map (fun p => if some p.id = lid then { p with score := p.score + 1 } else p) := by
  induction ps with
  | nil => rfl
  | cons p rest ih =>
    simp only [List.map_cons, List.nodup_cons] at hnd
    by_cases hp : some p.id = lid
    · simp only [bumpScore, if_pos hp, List.map_cons]
      congr 1
      refine (map_self_of_fixed rest _ ?_).symm
      intro q hq
      rw [if_neg]
      intro hql
      rw [← hp] at hql
      injection hql with hql
      exact hnd.1 (hql ▸ List.mem_map_of_mem (fun p => p.id) hq)
    · simp only [bumpScore, if_neg hp, List.map_cons]
      rw [ih hnd.2]

/-- **C4.** Whenever tallying runs on a room in phase `voting` (all
players voted, or the vote timer expired) and completes: the outcome is
recorded in `voteResult`, the phase becomes `liarGuess` in both cases,
and — with the roster's transport ids pairwise distinct — if the winning
target is the liar every other player gains exactly one point and the
liar's score is unchanged, while if the winning target is not the liar
exactly the liar gains one point and every other score is unchanged. -/
theorem tallyVotes_scoring (catalog : String → Option (List String))
    (connected : String → Bool) (rv : Nat) (room : Room)
    (hphase : room.gameState = GamePhase.voting)
    (hnd : (room.players.map (fun p => p.id)).Nodup)
    (r : Room) (effs : List Effect)
    (h : tallyVotes catalog connected rv room = some (r, effs)) :
    r.gameState = GamePhase.liarGuess ∧
    r.voteResult
      = some { mostVotedPlayer := room.players.find?
                 (fun p => p.id = (mostVoted (votesToTally room rv)).getD "")
               isLiar := decide (some ((mostVoted (votesToTally room rv)).getD "")
                 = room.liarId) } ∧
    (some ((mostVoted (votesToTally room rv)).getD "") = room.liarId →
      r.players = room.players.map (fun p =>
        if some p.id ≠ room.liarId then { p with score := p.score + 1 } else p)) ∧
    (some ((mostVoted (votesToTally room rv)).getD "") ≠ room.liarId →
      r.players = room.players.map (fun p =>
        if some p.id = room.liarId then { p with score := p.score + 1 } else p)) := by
  have hcards := tallyVotes_success catalog connected rv room hphase r effs h
  have hf := addGuessCards_fields catalog (tallyCore room rv) r hcards
  refine ⟨?_, ?_, ?_, ?_⟩
  · rw [hf.1, tallyCore_gameState]
  · rw [hf.2.1, tallyCore_voteResult]
  · intro hl
    rw [hf.2.2.1, tallyCore_players_caught room rv hl]
  · intro hl
    rw [hf.2.2.1, tallyCore_players_missed room rv hl]
    exact bumpScore_eq_map room.players room.liarId hnd

/-- The demo voting room with every vote on Bob (the liar). -/
def demoVotesOnLiarRoom : Room :=
  { demoVotingRoom with votes := [("a", "b"), ("b", "b"), ("c", "b")] }

/-- The demo voting room with every vote on Alice (not the liar). -/
def demoVotesOnAliceRoom : Room :=
  { demoVotingRoom with votes := [("a", "a"), ("b", "a"), ("c", "a")] }

/-- **C4 witness**: with all three votes on Bob (the liar) the citizens
each gain a point; with all three votes on Alice the liar gains the
point; the phase is `liarGuess` in both runs. -/
theorem tallyVotes_scoring_witness :
    ((tallyVotes demoCatalog allConnected 0 demoVotesOnLiarRoom).map
        (fun x => (x.1.gameState, x.1.players.map (fun p => (p.name, p.score)))))
      = some (GamePhase.liarGuess, [("Alice", 1), ("Bob", 0), ("Carol", 1)]) ∧
    ((tallyVotes demoCatalog allConnected 0 demoVotesOnAliceRoom).map
        (fun x => (x.1.gameState, x.1.players.map (fun p => (p.name, p.score)))))
      = some (GamePhase.liarGuess, [("Alice", 0), ("Bob", 1), ("Carol", 0)]) := by
  constructor
  · cases hev : tallyVotes demoCatalog allConnected 0 demoVotesOnLiarRoom with
    | none => exact absurd hev (by decide)
    | some x =>
      obtain ⟨r, effs⟩ := x
      have hs := tallyVotes_scoring demoCatalog allConnected 0 demoVotesOnLiarRoom
        (by decide) (by decide) r effs hev
      have hp := hs.2.2.1 (by decide)
      simp only [Option.map_some']
      rw [hs.1, hp]
      decide
  · cases hev : tallyVotes demoCatalog allConnected 0 demoVotesOnAliceRoom with
    | none => exact absurd hev (by decide)
    | some x =>
      obtain ⟨r, effs⟩ := x
      have hs := tallyVotes_scoring demoCatalog allConnected 0 demoVotesOnAliceRoom
        (by decide) (by decide) r effs hev
      have hp := hs.2.2.2 (by decide)
      simp only [Option.map_some']
      rw [hs.1, hp]
      decide

/-- **C9.** `submitLiarGuess` mutates state only when the room's phase
is `liarGuess` and the sender's transport id is the liar's current
binding: any other submit returns the room unchanged with no effects.
In the valid case the guess is judged correct exactly when it equals the
round's true word after trimming and lowercasing (the source trims only
the guess, so the stored word is assumed trimmed); a correct guess adds
one point to the liar (roster ids distinct) and an incorrect one changes
no score; the outcome is recorded either way; afterwards the phase is
`finished` exactly when some player has reached the target score, else
`roundOver`. -/
theorem submitLiarGuess_behavior (room : Room) (senderId guess : String)
    (hnd : (room.players.map (fun p => p.id)).Nodup) :
    ((room.gameState ≠ GamePhase.liarGuess ∨ room.liarId ≠ some senderId) →
      submitLiarGuessRoom room senderId guess = some (room, [])) ∧
    (∀ w, room.gameState = GamePhase.liarGuess → room.liarId = some senderId →
      room.word = some w → jsTrim w = w →
      ∃ r effs, submitLiarGuessRoom room senderId guess = some (r, effs) ∧
        (jsToLower (jsTrim guess) = jsToLower (jsTrim w) →
          r.liarGuessResult = some { guess := guess, correct := true } ∧
          r.players = room.players.map (fun p =>
            if some p.id = room.liarId then { p with score := p.score + 1 } else p)) ∧
        (jsToLower (jsTrim guess) ≠ jsToLower (jsTrim w) →
          r.liarGuessResult = some { guess := guess, correct := false } ∧
          r.players = room.players) ∧
        ((∃ p ∈ r.players, room.targetScore ≤ p.score) →
          r.gameState = GamePhase.finished) ∧
        ((¬ ∃ p ∈ r.players, room.targetScore ≤ p.score) →
          r.gameState = GamePhase.roundOver)) := by
  constructor
  · intro hg
    unfold submitLiarGuessRoom
    rw [if_pos]
    rcases hg with hg | hg
    · exact Or.inl hg
    · exact Or.inr (fun he => hg he.symm)
  · intro w hphase hliar hword hwtrim
    have hguard : ¬ (room.gameState ≠ GamePhase.liarGuess ∨ some senderId ≠ room.liarId) := by
      push_neg
      exact ⟨hphase, hliar.symm⟩
    have hwl : jsToLower (jsTrim w) = jsToLower w := by rw [hwtrim]
    unfold submitLiarGuessRoom
    rw [if_neg hguard, hword]
    dsimp only
    by_cases hc : jsToLower (jsTrim guess) = jsToLower w
    · rw [decide_eq_true hc]
      unfold endRound
      dsimp only
      rw [if_pos rfl]
      refine ⟨_, _, rfl, fun _ => ⟨rfl, ?_⟩,
        fun hne => absurd (hwl ▸ hc) hne, ?_, ?_⟩
      · exact bumpScore_eq_map room.players room.liarId hnd
      · intro hwin
        obtain ⟨p, hp, hps⟩ := hwin
        rw [if_pos (List.find?_isSome.mpr ⟨p, hp, by simpa using hps⟩)]
      · intro hwin
        rw [if_neg]
        intro hsome
        obtain ⟨p, hp, hps⟩ := List.find?_isSome.mp hsome
        exact hwin ⟨p, hp, by simpa using hps⟩
    · rw [decide_eq_false hc]
      unfold endRound
      dsimp only
      rw [if_neg (by simp)]
      refine ⟨_, _, rfl, fun heq => absurd (hwl ▸ heq) hc, fun _ => ⟨rfl, rfl⟩, ?_, ?_⟩
      · intro hwin
        obtain ⟨p, hp, hps⟩ := hwin
        rw [if_pos (List.find?_isSome.mpr ⟨p, hp, by simpa using hps⟩)]
      · intro hwin
        rw [if_neg]
        intro hsome
        obtain ⟨p, hp, hps⟩ := List.find?_isSome.mp hsome
        exact hwin ⟨p, hp, by simpa using hps⟩

/-- **C9 witness**: a non-liar's guess and a wrong-phase guess are
silent no-ops; then Bob (the liar) guesses `" 사과 "` against true word
`"사과"` in phase `liarGuess`: judged correct, one point awarded, outcome
recorded, phase `roundOver` (target 5 not reached). -/
theorem submitLiarGuess_behavior_witness :
    (submitLiarGuessRoom demoGuessRoom "a" "x" = some (demoGuessRoom, [])) ∧
    (submitLiarGuessRoom demoPlayingRoom "b" "x" = some (demoPlayingRoom, [])) ∧
    ((submitLiarGuessRoom demoGuessRoom "b" " 사과 ").map
        (fun x => (x.1.gameState, x.1.liarGuessResult,
          x.1.players.map (fun p => (p.name, p.score)))))
      = some (GamePhase.roundOver, some { guess := " 사과 ", correct := true },
          [("Alice", 0), ("Bob", 1), ("Carol", 0)]) := by
  obtain ⟨hnoopA, -⟩ := submitLiarGuess_behavior demoGuessRoom "a" "x" (by decide)
  obtain ⟨hnoopB, -⟩ := submitLiarGuess_behavior demoPlayingRoom "b" "x" (by decide)
  obtain ⟨-, hvalid⟩ := submitLiarGuess_behavior demoGuessRoom "b" " 사과 " (by decide)
  obtain ⟨r, effs, heq, hcorrect, hincorrect, hfin, hro⟩ :=
    hvalid "사과" (by decide) (by decide) (by decide) (by decide)
  obtain ⟨hres, hplayers⟩ := hcorrect (by decide)
  have hnowin : ¬ ∃ p ∈ r.players, demoGuessRoom.targetScore ≤ p.score := by
    rw [hplayers]
    decide
  refine ⟨hnoopA (Or.inr (by decide)), hnoopB (Or.inl (by decide)), ?_⟩
  rw [heq]
  simp only [Option.map_some']
  rw [hro hnowin, hres, hplayers]
  decide

/-- A room whose host has customised every settings field away from the
defaults. -/
def demoCustomSettingsRoom : Room :=
  { demoPlayingRoom with
    targetScore := 7
    gameMode := "fool"
    selectedCategories := ["동물"]
    liarGuessType := "card"
    hintType := "drawing" }

/-- **C1 counterexample.** A host-issued `restartGame` does not keep the
room's settings: the custom target score 7 (and mode, categories, guess
and hint types) are overwritten with the defaults by the
`...getDefaultRoomSettings()` spread. -/
theorem restartGame_settings_counterexample :
    demoCustomSettingsRoom.hostId = "a" ∧
    demoCustomSettingsRoom.targetScore = 7 ∧
    (restartGameRoom demoCustomSettingsRoom "a").1.targetScore = 5 ∧
    (restartGameRoom demoCustomSettingsRoom "a").1.targetScore
      ≠ demoCustomSettingsRoom.targetScore ∧
    (restartGameRoom demoCustomSettingsRoom "a").1.gameMode
      ≠ demoCustomSettingsRoom.gameMode ∧
    (restartGameRoom demoCustomSettingsRoom "a").1.selectedCategories
      ≠ demoCustomSettingsRoom.selectedCategories ∧
    (restartGameRoom demoCustomSettingsRoom "a").1.liarGuessType
      ≠ demoCustomSettingsRoom.liarGuessType ∧
    (restartGameRoom demoCustomSettingsRoom "a").1.hintType
      ≠ demoCustomSettingsRoom.hintType := by
  decide

/-- **C1 (amended).** A host-issued `restartGame` zeroes every score,
wipes every round-scoped field back to the `waiting` state, and keeps the
roster (same players, same stable identities, same order) and the room
and host identity — but the five settings fields are reset to the
defaults, not kept. -/
theorem restartGame_resets_scores_roster_kept (room : Room) (senderId : String)
    (h : room.hostId = senderId) :
    (restartGameRoom room senderId).1.players
        = room.players.map (fun p => { p with score := 0 }) ∧
    (restartGameRoom room senderId).1.roomId = room.roomId ∧
    (restartGameRoom room senderId).1.hostId = room.hostId ∧
    (restartGameRoom room senderId).1.gameState = GamePhase.waiting ∧
    (restartGameRoom room senderId).1.word = none ∧
    (restartGameRoom room senderId).1.liarId = none ∧
    (restartGameRoom room senderId).1.turn = none ∧
    (restartGameRoom room senderId).1.hints = [] ∧
    (restartGameRoom room senderId).1.votes = [] ∧
    (restartGameRoom room senderId).1.voteResult = none ∧
    (restartGameRoom room senderId).1.liarGuessResult = none ∧
    (restartGameRoom room senderId).1.currentCategory = none ∧
    (restartGameRoom room senderId).1.liarGuessCards = [] ∧
    (restartGameRoom room senderId).1.selectedCategories
      = getDefaultRoomSettings.selectedCategories ∧
    (restartGameRoom room senderId).1.targetScore = getDefaultRoomSettings.targetScore ∧
    (restartGameRoom room senderId).1.gameMode = getDefaultRoomSettings.gameMode ∧
    (restartGameRoom room senderId).1.liarGuessType
      = getDefaultRoomSettings.liarGuessType ∧
    (restartGameRoom room senderId).1.hintType = getDefaultRoomSettings.hintType := by
  have hguard : ¬ room.hostId ≠ senderId := by simpa using h
  unfold restartGameRoom
  rw [if_neg hguard]
  unfold resetRoundState applySettings
  dsimp only
  exact ⟨rfl, rfl, rfl, rfl, rfl, rfl, rfl, rfl, rfl, rfl, rfl, rfl, rfl, rfl,
    rfl, rfl, rfl, rfl⟩

/-- **C1 witness**: restarting the customised demo room zeroes the
scores, keeps the three stable identities in order, and lands on the
default settings. -/
theorem restartGame_resets_scores_roster_kept_witness :
    (restartGameRoom demoCustomSettingsRoom "a").1.players.map
        (fun p => (p.persistentId, p.score)) = [("pa", 0), ("pb", 0), ("pc", 0)] ∧
    (restartGameRoom demoCustomSettingsRoom "a").1.gameState = GamePhase.waiting ∧
    (restartGameRoom demoCustomSettingsRoom "a").1.targetScore = 5 := by
  obtain ⟨hp, -, -, hg, -, -, -, -, -, -, -, -, -, -, ht, -⟩ :=
    restartGame_resets_scores_roster_kept demoCustomSettingsRoom "a" rfl
  refine ⟨?_, hg, ht⟩
  rw [hp]
  decide

/-- The demo room between rounds (phase `roundOver`). -/
def demoRoundOverRoom : Room :=
  { demoPlayingRoom with
    gameState := GamePhase.roundOver, word := none, liarId := none, turn := none }

/-- A single-player waiting room. -/
def demoSoloRoom : Room := initialRoom "S" playerA "a"

/-- **C2 counterexample.** `startGame` performs no phase check: on a room
whose phase is `roundOver` (not `waiting`), a host-sent `startGame` with
two or more players mutates the room — the phase becomes `playing` and a
fresh round is dealt — so "phase not `waiting` implies the room is left
unchanged" fails. -/
theorem startGame_ignores_phase_counterexample :
    demoRoundOverRoom.gameState ≠ GamePhase.waiting ∧
    (startGame demoCatalog allConnected 0 0 0 0 0 demoRoundOverRoom "a").map
        (fun x => x.1.gameState) = some GamePhase.playing ∧
    (startGame demoCatalog allConnected 0 0 0 0 0 demoRoundOverRoom "a").map Prod.fst
      ≠ some demoRoundOverRoom := by
  decide

/-- **C2 (amended).** `startGame` mutates the room only when the
requester's transport id is the host's and the roster has at least two
players — a non-host request is a silent no-op and an undersized roster
only produces an error — but no phase is required: whenever the two
guards pass and the handler completes, a new round begins (phase
`playing`), whatever the previous phase was. -/
theorem startGame_guards (catalog : String → Option (List String))
    (connected : String → Bool) (rc rl rw1 rw2 rt : Nat)
    (room : Room) (senderId : String) :
    (room.hostId ≠ senderId →
      startGame catalog connected rc rl rw1 rw2 rt room senderId = some (room, [])) ∧
    (room.hostId = senderId → room.players.length < 2 →
      startGame catalog connected rc rl rw1 rw2 rt room senderId
        = some (room, [Effect.errorMsg senderId "최소 2명의 플레이어가 필요합니다."])) ∧
    (room.hostId = senderId → 2 ≤ room.players.length →
      ∀ r effs, startGame catalog connected rc rl rw1 rw2 rt room senderId
          = some (r, effs) → r.gameState = GamePhase.playing) := by
  refine ⟨?_, ?_, ?_⟩
  · intro hhost
    unfold startGame
    rw [if_pos hhost]
  · intro hhost hlen
    unfold startGame
    rw [if_neg (by simpa using hhost), if_pos hlen]
  · intro hhost hlen r effs h
    unfold startGame at h
    rw [if_neg (by simpa using hhost), if_neg (by omega)] at h
    dsimp only at h
    split at h
    · exact absurd h (by simp)
    · split at h
      · exact absurd h (by simp)
      · injection h with h
        have hr : _ = r := congrArg Prod.fst h
        rw [← hr]

/-- **C2 witness**: a stranger's `startGame` is a no-op; a solo host gets
only the error; the host restarting from `roundOver` lands in
`playing`. -/
theorem startGame_guards_witness :
    (startGame demoCatalog allConnected 0 0 0 0 0 demoPlayingRoom "z"
      = some (demoPlayingRoom, [])) ∧
    (startGame demoCatalog allConnected 0 0 0 0 0 demoSoloRoom "a"
      = some (demoSoloRoom, [Effect.errorMsg "a" "최소 2명의 플레이어가 필요합니다."])) ∧
    ((startGame demoCatalog allConnected 0 0 0 0 0 demoRoundOverRoom "a").map
        (fun x => x.1.gameState) = some GamePhase.playing) := by
  obtain ⟨h1, -, -⟩ := startGame_guards demoCatalog allConnected 0 0 0 0 0 demoPlayingRoom "z"
  obtain ⟨-, h2, -⟩ := startGame_guards demoCatalog allConnected 0 0 0 0 0 demoSoloRoom "a"
  obtain ⟨-, -, h3⟩ := startGame_guards demoCatalog allConnected 0 0 0 0 0 demoRoundOverRoom "a"
  refine ⟨h1 (by decide), h2 rfl (by decide), ?_⟩
  cases hev : startGame demoCatalog allConnected 0 0 0 0 0 demoRoundOverRoom "a" with
  | none => exact absurd hev (by decide)
  | some x =>
    obtain ⟨r, effs⟩ := x
    have := h3 rfl (by decide) r effs hev
    simp only [Option.map_some', this]

/-- The demo room configured for fool mode over the one-word category. -/
def demoFoolOneWordRoom : Room :=
  { demoPlayingRoom with
    gameState := GamePhase.waiting, gameMode := "fool",
    selectedCategories := ["단일"], word := none, liarId := none, turn := none }

/-- **C3 counterexample.** In fool mode over a category with exactly one
word, the word distribution degrades (the liar gets no word) but the
role reveal does not degrade to normal mode: the liar (Bob, picked by
oracle `rl = 1`) is told role `"Citizen"`, not `"liar"`. -/
theorem foolMode_one_word_counterexample :
    (demoCatalog "단일").map List.length = some 1 ∧
    demoFoolOneWordRoom.gameMode = "fool" ∧
    (startGame demoCatalog allConnected 0 1 0 0 0 demoFoolOneWordRoom "a").map
        (fun x => x.1.liarId) = some (some "b") ∧
    (startGame demoCatalog allConnected 0 1 0 0 0 demoFoolOneWordRoom "a").map
        Prod.snd
      = some [Effect.timerStop "R",
              Effect.gameStarted "a" "Citizen" "단일" (some "유일"),
              Effect.gameStarted "b" "Citizen" "단일" none,
              Effect.gameStarted "c" "Citizen" "단일" (some "유일"),
              Effect.timerStart "R" HINT_TIMER_DURATION,
              Effect.updateRoom "R"] := by
  decide

/-- **C3 (amended).** When a round starts in fool mode: with at least two
catalog words, two distinct words are chosen, every non-liar is dealt the
first and the liar the second; with exactly one word the distribution
degrades to normal mode (non-liars get the single word, the liar gets no
word) — but in both cases every connected player, the liar included, is
told role `"Citizen"`: no reveal of this round carries any other role. -/
theorem startGame_fool_mode (catalog : String → Option (List String))
    (connected : String → Bool) (rc rl rw1 rw2 rt : Nat)
    (room : Room) (senderId cat : String) (ws : List String)
    (hhost : room.hostId = senderId)
    (hp2 : 2 ≤ room.players.length)
    (hmode : room.gameMode = "fool")
    (hcat : room.selectedCategories[rc % max 1 room.selectedCategories.length]?
      = some cat)
    (hws : catalog cat = some ws) :
    ∃ r effs, startGame catalog connected rc rl rw1 rw2 rt room senderId
        = some (r, effs) ∧
      (∀ e ∈ effs, ∀ toId role c w, e = Effect.gameStarted toId role c w →
        role = "Citizen") ∧
      (1 < ws.length →
        ∃ i1 i2, i1 < ws.length ∧ i2 < ws.length ∧ i1 ≠ i2 ∧
          r.word = ws[i1]? ∧
          ∀ p ∈ room.players, connected p.id = true →
            Effect.gameStarted p.id "Citizen" cat
              (if some p.id = r.liarId then ws[i2]? else ws[i1]?) ∈ effs) ∧
      (ws.length = 1 →
        r.word = ws[0]? ∧
        ∀ p ∈ room.players, connected p.id = true →
          Effect.gameStarted p.id "Citizen" cat
            (if some p.id = r.liarId then none else ws[0]?) ∈ effs) := by
  have hne : ¬ room.hostId ≠ senderId := by simpa using hhost
  have hlt : ¬ room.players.length < 2 := by omega
  unfold startGame
  rw [if_neg hne, if_neg hlt]
  unfold resetRoundState
  dsimp only
  rw [hcat]
  dsimp only
  rw [hws, hmode]
  dsimp only
  refine ⟨_, _, rfl, ?_, ?_, ?_⟩
  · -- every gameStarted reveal carries role "Citizen"
    intro e he toId role c w heq
    subst heq
    rcases List.mem_append.mp he with he1 | he2
    · rcases List.mem_append.mp he1 with he3 | he4
      · -- the resetRoundState stop-timer effect
        by_cases hrid : room.roomId ≠ ""
        · rw [if_pos hrid] at he3
          simp at he3
        · rw [if_neg hrid] at he3
          simp at he3
      · -- a reveal from the filterMap
        obtain ⟨p, hp, hfp⟩ := List.mem_filterMap.mp he4
        by_cases hc : connected p.id = true
        · rw [if_pos hc] at hfp
          rw [if_pos rfl] at hfp
          injection hfp with hfp
          injection hfp with h1 h2 h3 h4
          exact h2.symm
        · rw [if_neg hc] at hfp
          simp at hfp
    · simp at he2
  · -- at least two catalog words: two distinct words dealt
    intro hlen
    have hfool : ("fool" : String) = "fool" ∧ 1 < ws.length := ⟨rfl, hlen⟩
    have hmax : max 1 ws.length = ws.length := by omega
    refine ⟨rw1 % ws.length, ?_, Nat.mod_lt _ (by omega), ?_, ?_, ?_, ?_⟩
    case _ =>
      exact if rw2 % (ws.length - 1) < rw1 % ws.length then rw2 % (ws.length - 1)
        else rw2 % (ws.length - 1) + 1
    · have hj : rw2 % (ws.length - 1) < ws.length - 1 := Nat.mod_lt _ (by omega)
      split <;> omega
    · have hj : rw2 % (ws.length - 1) < ws.length - 1 := Nat.mod_lt _ (by omega)
      split <;> omega
    · dsimp only
      rw [hmax]
    · intro p hp hc
      refine List.mem_append.mpr (Or.inl (List.mem_append.mpr (Or.inr ?_)))
      refine List.mem_filterMap.mpr ⟨p, hp, ?_⟩
      rw [if_pos hc, if_pos rfl]
      rw [if_pos hfool, hmax]
      by_cases hpl : some p.id
          = (room.players[rl % max 1 room.players.length]?).map (fun q => q.id)
      · rw [if_pos hpl, decide_eq_true hpl, if_pos rfl]
      · rw [if_neg hpl, decide_eq_false hpl]
        rfl
  · -- exactly one catalog word: degrade to the normal distribution
    intro hlen
    have hnfool : ¬ (("fool" : String) = "fool" ∧ 1 < ws.length) := by omega
    have hmax : max 1 ws.length = 1 := by omega
    constructor
    · dsimp only
      rw [hmax, Nat.mod_one]
    · intro p hp hc
      refine List.mem_append.mpr (Or.inl (List.mem_append.mpr (Or.inr ?_)))
      refine List.mem_filterMap.mpr ⟨p, hp, ?_⟩
      rw [if_pos hc, if_pos rfl]
      rw [if_neg hnfool, hmax, Nat.mod_one]
      by_cases hpl : some p.id
          = (room.players[rl % max 1 room.players.length]?).map (fun q => q.id)
      · rw [if_pos hpl, decide_eq_true hpl, if_pos rfl]
      · rw [if_neg hpl, decide_eq_false hpl]
        rfl

/-- The demo room configured for fool mode over the three-word movie
category, back in `waiting`. -/
def demoFoolRoom : Room :=
  { demoPlayingRoom with
    gameState := GamePhase.waiting, gameMode := "fool",
    word := none, liarId := none, turn := none }

/-- **C3 witness**: fool mode over three words deals Bob (the liar,
oracle `rl = 1`) the decoy `"바나나"` and everyone else `"사과"`, all as
`"Citizen"`; over the one-word category the liar gets no word and still
`"Citizen"`. -/
theorem startGame_fool_mode_witness :
    ((startGame demoCatalog allConnected 0 1 0 0 0 demoFoolRoom "a").map Prod.snd
      = some [Effect.timerStop "R",
              Effect.gameStarted "a" "Citizen" "영화" (some "사과"),
              Effect.gameStarted "b" "Citizen" "영화" (some "바나나"),
              Effect.gameStarted "c" "Citizen" "영화" (some "사과"),
              Effect.timerStart "R" HINT_TIMER_DURATION,
              Effect.updateRoom "R"]) ∧
    ((startGame demoCatalog allConnected 0 1 0 0 0 demoFoolOneWordRoom "a").map Prod.snd
      = some [Effect.timerStop "R",
              Effect.gameStarted "a" "Citizen" "단일" (some "유일"),
              Effect.gameStarted "b" "Citizen" "단일" none,
              Effect.gameStarted "c" "Citizen" "단일" (some "유일"),
              Effect.timerStart "R" HINT_TIMER_DURATION,
              Effect.updateRoom "R"]) ∧
    (startGame demoCatalog allConnected 0 1 0 0 0 demoFoolRoom "a").isSome = true := by
  obtain ⟨r, effs, heq, -, -, -⟩ :=
    startGame_fool_mode demoCatalog allConnected 0 1 0 0 0 demoFoolRoom "a" "영화"
      ["사과", "바나나", "체리"] (by decide) (by decide) (by decide) (by decide)
      (by decide)
  refine ⟨by decide, by decide, ?_⟩
  rw [heq]
  rfl

/-! ## The word invariant (C10) -/

/-- In the active phases the round word is set. -/
def WordInv (room : Room) : Prop :=
  (room.gameState = GamePhase.playing ∨ room.gameState = GamePhase.voting ∨
    room.gameState = GamePhase.liarGuess) → room.word ≠ none

/-- Every registered room satisfies the word invariant. -/
def RoomsInv (rooms : Rooms) : Prop := ∀ e ∈ rooms, WordInv e.2

theorem wordInv_of_fields {room r : Room} (hg : r.gameState = room.gameState)
    (hw : r.word = room.word) (hinv : WordInv room) : WordInv r := by
  intro h
  rw [hg] at h
  rw [hw]
  exact hinv h

theorem initialRoom_wordInv (nid : String) (p : Player) (sid : String) :
    WordInv (initialRoom nid p sid) := by
  intro h
  rcases h with h | h | h <;> cases h

theorem updateSettingsRoom_wordInv (room : Room) (sid : String) (ns : NewSettings)
    (hinv : WordInv room) : WordInv (updateSettingsRoom room sid ns).1 := by
  unfold updateSettingsRoom
  split
  · exact hinv
  · exact wordInv_of_fields rfl rfl hinv

theorem joinRoomRoom_wordInv (room : Room) (sid pid name : String)
    (hinv : WordInv room) : WordInv (joinRoomRoom room sid pid name).1 := by
  unfold joinRoomRoom
  split
  · exact hinv
  · exact wordInv_of_fields rfl rfl hinv

theorem reconnectPlayerRoom_wordInv (room : Room) (sid pid : String)
    (hinv : WordInv room) : WordInv (reconnectPlayerRoom room sid pid).1 := by
  unfold reconnectPlayerRoom
  split
  · exact hinv
  · exact wordInv_of_fields rfl rfl hinv

theorem sendMessageRoom_wordInv (room : Room) (sid msg ts : String)
    (hinv : WordInv room) : WordInv (sendMessageRoom room sid msg ts).1 := by
  unfold sendMessageRoom
  split
  · exact hinv
  · exact wordInv_of_fields rfl rfl hinv

theorem submitHintRoom_wordInv (room : Room) (sid k c : String)
    (hinv : WordInv room) : WordInv (submitHintRoom room sid k c).1 := by
  unfold submitHintRoom
  split
  · exact hinv
  · rename_i hguard
    push_neg at hguard
    dsimp only
    split
    · intro _
      exact hinv (Or.inl hguard.1)
    · intro _
      exact hinv (Or.inl hguard.1)

theorem hintTimeout_wordInv (room : Room)
    (hph : room.gameState = GamePhase.playing) (hinv : WordInv room) :
    WordInv (hintTimeout room).1 := by
  unfold hintTimeout
  dsimp only
  split <;> split <;> (intro _; exact hinv (Or.inl hph))

theorem tallyVotes_wordInv (catalog : String → Option (List String))
    (connected : String → Bool) (rv : Nat) (room r : Room) (effs : List Effect)
    (h : tallyVotes catalog connected rv room = some (r, effs))
    (hinv : WordInv room) : WordInv r := by
  by_cases hph : room.gameState = GamePhase.voting
  · have hs := tallyVotes_success catalog connected rv room hph r effs h
    have hf := addGuessCards_fields catalog (tallyCore room rv) r hs
    intro _
    rw [hf.2.2.2.1, tallyCore_word]
    exact hinv (Or.inr (Or.inl hph))
  · unfold tallyVotes at h
    rw [if_pos hph] at h
    injection h with h
    injection h with h1 h2
    subst h1
    exact hinv

theorem submitVoteRoom_wordInv (catalog : String → Option (List String))
    (connected : String → Bool) (rv : Nat) (room : Room) (sid vid : String)
    (r : Room) (effs : List Effect)
    (h : submitVoteRoom catalog connected rv room sid vid = some (r, effs))
    (hinv : WordInv room) : WordInv r := by
  unfold submitVoteRoom at h
  split at h
  · injection h with h
    injection h with h1 h2
    subst h1
    exact hinv
  · dsimp only at h
    split at h
    · split at h
      · exact absurd h (by simp)
      · rename_i r2 e2 htv
        injection h with h
        injection h with h1 h2
        subst h1
        exact tallyVotes_wordInv catalog connected rv _ r2 e2 htv
          (wordInv_of_fields rfl rfl hinv)
    · injection h with h
      injection h with h1 h2
      subst h1
      exact wordInv_of_fields rfl rfl hinv

theorem endRound_wordInv (room : Room) : WordInv (endRound room).1 := by
  unfold endRound
  dsimp only
  intro hact
  by_cases hc : (List.find? (fun p => decide (room.targetScore ≤ p.score))
      room.players).isSome = true
  · rw [if_pos hc] at hact
    rcases hact with h1 | h1 | h1 <;> exact absurd h1 (by simp)
  · rw [if_neg hc] at hact
    rcases hact with h1 | h1 | h1 <;> exact absurd h1 (by simp)

theorem submitLiarGuessRoom_wordInv (room : Room) (sid guess : String)
    (r : Room) (effs : List Effect)
    (h : submitLiarGuessRoom room sid guess = some (r, effs))
    (hinv : WordInv room) : WordInv r := by
  unfold submitLiarGuessRoom at h
  split at h
  · injection h with h
    injection h with h1 h2
    subst h1
    exact hinv
  · split at h
    · exact absurd h (by simp)
    · dsimp only at h
      injection h with h
      have h1 := congrArg Prod.fst h
      dsimp only at h1
      rw [← h1]
      exact endRound_wordInv _

/-- The invariant makes the `submitLiarGuess` word comparison total: the
handler never hits the null-word crash under its phase guard. -/
theorem submitLiarGuessRoom_total (room : Room) (sid guess : String)
    (hinv : WordInv room) :
    (submitLiarGuessRoom room sid guess).isSome = true := by
  unfold submitLiarGuessRoom
  split
  · rfl
  · rename_i hguard
    push_neg at hguard
    split
    · rename_i hw
      exact absurd hw (hinv (Or.inr (Or.inr hguard.1)))
    · rfl

theorem restartGameRoom_wordInv (room : Room) (sid : String)
    (hinv : WordInv room) : WordInv (restartGameRoom room sid).1 := by
  unfold restartGameRoom
  split
  · exact hinv
  · unfold resetRoundState applySettings
    dsimp only
    intro hact
    exfalso
    rcases hact with h1 | h1 | h1 <;> exact GamePhase.noConfusion h1

theorem startGame_wordInv (catalog : String → Option (List String))
    (connected : String → Bool) (rc rl rw1 rw2 rt : Nat) (room : Room)
    (sid : String) (r : Room) (effs : List Effect)
    (hgood : ∀ c ws, catalog c = some ws → ws ≠ [])
    (h : startGame catalog connected rc rl rw1 rw2 rt room sid = some (r, effs))
    (hinv : WordInv room) : WordInv r := by
  unfold startGame at h
  split at h
  · injection h with h
    injection h with h1 h2
    subst h1
    exact hinv
  · split at h
    · injection h with h
      injection h with h1 h2
      subst h1
      exact hinv
    · dsimp only at h
      split at h
      · exact absurd h (by simp)
      · rename_i cat hcat
        split at h
        · exact absurd h (by simp)
        · rename_i ws hws
          injection h with h
          injection h with h1 h2
          subst h1
          intro _
          have hne := hgood cat ws hws
          have hlen : 0 < ws.length := List.length_pos.mpr hne
          have hmax : max 1 ws.length = ws.length := by omega
          show ws[rw1 % max 1 ws.length]? ≠ none
          rw [hmax, List.getElem?_eq_getElem (Nat.mod_lt _ hlen)]
          simp

theorem some_pair_fst {α β : Type} {p : α × β} {a : α} {b : β}
    (h : some p = some (a, b)) : p.1 = a := by
  injection h with h
  exact congrArg Prod.fst h

theorem onRoom_inv (rooms : Rooms) (roomId : String) (f : Room → Room × List Effect)
    (hf : ∀ room, getRoom rooms roomId = some room → WordInv room → WordInv (f room).1)
    (hinv : RoomsInv rooms) : RoomsInv (onRoom rooms roomId f).1 := by
  unfold onRoom
  cases hg : getRoom rooms roomId with
  | none => exact hinv
  | some room =>
    dsimp only
    intro e he
    rcases mem_setRoom _ _ _ _ he with rfl | hmem
    · exact hf room hg (hinv _ (getRoom_mem _ _ _ hg))
    · exact hinv _ hmem

theorem onRoom?_inv (rooms : Rooms) (roomId : String)
    (f : Room → Option (Room × List Effect)) (rooms' : Rooms) (effs : List Effect)
    (h : onRoom? rooms roomId f = some (rooms', effs))
    (hf : ∀ room res, getRoom rooms roomId = some room → f room = some res →
      WordInv room → WordInv res.1)
    (hinv : RoomsInv rooms) : RoomsInv rooms' := by
  unfold onRoom? at h
  cases hg : getRoom rooms roomId with
  | none =>
    rw [hg] at h
    dsimp only at h
    injection h with h
    injection h with h1 h2
    subst h1
    exact hinv
  | some room =>
    rw [hg] at h
    dsimp only at h
    cases hfr : f room with
    | none =>
      rw [hfr] at h
      exact absurd h (by simp)
    | some res =>
      rw [hfr] at h
      dsimp only at h
      injection h with h
      injection h with h1 h2
      subst h1
      intro e he
      rcases mem_setRoom _ _ _ _ he with rfl | hmem
      · exact hf room res hg hfr (hinv _ (getRoom_mem _ _ _ hg))
      · exact hinv _ hmem

theorem joinRoomStep_inv (rooms : Rooms) (roomId pid sid name : String)
    (hinv : RoomsInv rooms) : RoomsInv (joinRoomStep rooms roomId pid sid name).1 := by
  unfold joinRoomStep
  cases hg : getRoom rooms roomId with
  | none => exact hinv
  | some room =>
    dsimp only
    intro e he
    rcases mem_setRoom _ _ _ _ he with rfl | hmem
    · exact joinRoomRoom_wordInv room sid pid name (hinv _ (getRoom_mem _ _ _ hg))
    · exact hinv _ hmem

theorem disconnectExpire_inv (rooms : Rooms) (sid : String)
    (hinv : RoomsInv rooms) : RoomsInv (disconnectExpire rooms sid).1 := by
  unfold disconnectExpire
  split
  · exact hinv
  · rename_i rid room hfind
    split
    · exact hinv
    · rename_i p hp
      dsimp only
      split
      · -- the room emptied: it is deleted
        intro e he
        exact hinv _ (List.mem_filter.mp he).1
      · dsimp only
        intro e he
        rcases mem_setRoom _ _ _ _ he with rfl | hmem
        · have hw : WordInv room := hinv (rid, room) (List.mem_of_find?_eq_some hfind)
          exact wordInv_of_fields rfl rfl hw
        · exact hinv _ hmem

theorem handleTimeout_wordInv (catalog : String → Option (List String))
    (connected : String → Bool) (rv : Nat) (room : Room) (phase : String)
    (r : Room) (effs : List Effect)
    (h : handleTimeout catalog connected rv room phase = some (r, effs))
    (hinv : WordInv room) : WordInv r := by
  unfold handleTimeout at h
  split at h
  · rename_i hcond
    rw [← some_pair_fst h]
    exact hintTimeout_wordInv room hcond.2 hinv
  · split at h
    · exact tallyVotes_wordInv catalog connected rv room r effs h hinv
    · rw [← some_pair_fst h]
      exact hinv

/-- Every dispatch of the server preserves the registry-wide word
invariant (given the catalog's promise of non-empty word lists). -/
theorem step_preserves_inv (catalog : String → Option (List String))
    (connected : String → Bool) (rooms : Rooms) (i : Intent)
    (rooms' : Rooms) (effs : List Effect)
    (hgood : ∀ c ws, catalog c = some ws → ws ≠ [])
    (h : step catalog connected rooms i = some (rooms', effs))
    (hinv : RoomsInv rooms) : RoomsInv rooms' := by
  cases i with
  | createRoom nid pid sid name =>
    injection h with h
    injection h with h1 h2
    subst h1
    intro e he
    rcases mem_setRoom _ _ _ _ he with rfl | hmem
    · exact initialRoom_wordInv nid (createPlayer sid pid name) sid
    · exact hinv _ hmem
  | updateSettings roomId sid ns =>
    rw [← some_pair_fst h]
    exact onRoom_inv _ _ _ (fun room _ hw => updateSettingsRoom_wordInv room sid ns hw) hinv
  | joinRoom roomId pid sid name =>
    rw [← some_pair_fst h]
    exact joinRoomStep_inv rooms roomId pid sid name hinv
  | reconnectPlayer roomId pid sid =>
    rw [← some_pair_fst h]
    exact onRoom_inv _ _ _ (fun room _ hw => reconnectPlayerRoom_wordInv room sid pid hw) hinv
  | startGame roomId sid rc rl rw1 rw2 rt =>
    exact onRoom?_inv rooms roomId _ rooms' effs h
      (fun room res _ hres hw => by
        obtain ⟨r0, e0⟩ := res
        exact startGame_wordInv catalog connected rc rl rw1 rw2 rt room sid r0 e0
          hgood hres hw) hinv
  | submitHint roomId sid k c =>
    rw [← some_pair_fst h]
    exact onRoom_inv _ _ _ (fun room _ hw => submitHintRoom_wordInv room sid k c hw) hinv
  | submitVote roomId sid vid rv =>
    exact onRoom?_inv rooms roomId _ rooms' effs h
      (fun room res _ hres hw => by
        obtain ⟨r0, e0⟩ := res
        exact submitVoteRoom_wordInv catalog connected rv room sid vid r0 e0 hres hw) hinv
  | submitLiarGuess roomId sid guess =>
    exact onRoom?_inv rooms roomId _ rooms' effs h
      (fun room res _ hres hw => by
        obtain ⟨r0, e0⟩ := res
        exact submitLiarGuessRoom_wordInv room sid guess r0 e0 hres hw) hinv
  | sendMessage roomId sid msg ts =>
    rw [← some_pair_fst h]
    exact onRoom_inv _ _ _ (fun room _ hw => sendMessageRoom_wordInv room sid msg ts hw) hinv
  | restartGame roomId sid =>
    rw [← some_pair_fst h]
    exact onRoom_inv _ _ _ (fun room _ hw => restartGameRoom_wordInv room sid hw) hinv
  | hintTimerFired roomId =>
    exact onRoom?_inv rooms roomId _ rooms' effs h
      (fun room res _ hres hw => by
        obtain ⟨r0, e0⟩ := res
        exact handleTimeout_wordInv catalog connected 0 room "hint" r0 e0 hres hw) hinv
  | voteTimerFired roomId rv =>
    exact onRoom?_inv rooms roomId _ rooms' effs h
      (fun room res _ hres hw => by
        obtain ⟨r0, e0⟩ := res
        exact handleTimeout_wordInv catalog connected rv room "vote" r0 e0 hres hw) hinv
  | disconnectExpired sid =>
    rw [← some_pair_fst h]
    exact disconnectExpire_inv rooms sid hinv

/-- Every reachable registry satisfies the word invariant. -/
theorem reachable_roomsInv (catalog : String → Option (List String))
    (hgood : ∀ c ws, catalog c = some ws → ws ≠ [])
    (rooms : Rooms) (h : Reachable catalog rooms) : RoomsInv rooms := by
  induction h with
  | init => intro e he; cases he
  | next hreach hstep ih =>
    exact step_preserves_inv _ _ _ _ _ _ hgood hstep ih

/-- **C10.** In every room state reachable through the intent and timeout
handlers (over a catalog serving only non-empty word lists), whenever the
phase is `playing`, `voting` or `liarGuess` the round word is non-null —
and consequently the lowercasing equality check of `submitLiarGuess`
never faults under its phase guard: the handler is total on every
reachable room. -/
theorem reachable_word_nonnull (catalog : String → Option (List String))
    (hgood : ∀ c ws, catalog c = some ws → ws ≠ [])
    (rooms : Rooms) (h : Reachable catalog rooms) :
    ∀ e ∈ rooms,
      ((e.2.gameState = GamePhase.playing ∨ e.2.gameState = GamePhase.voting ∨
        e.2.gameState = GamePhase.liarGuess) → e.2.word ≠ none) ∧
      (∀ senderId guess,
        (submitLiarGuessRoom e.2 senderId guess).isSome = true) := by
  intro e he
  have hw : WordInv e.2 := reachable_roomsInv catalog hgood rooms h e he
  exact ⟨hw, fun sid guess => submitLiarGuessRoom_total e.2 sid guess hw⟩

/-- Registry after Alice creates room `R`. -/
def demoRegistry1 : Rooms := [("R", initialRoom "R" (createPlayer "a" "pa" "Alice") "a")]

/-- Registry after Bob joins. -/
def demoRegistry2 : Rooms :=
  [("R", { initialRoom "R" (createPlayer "a" "pa" "Alice") "a" with
      players := [createPlayer "a" "pa" "Alice", createPlayer "b" "pb" "Bob"] })]

/-- The room after the host starts the first round (all oracles 0). -/
def demoRoom3 : Room :=
  { initialRoom "R" (createPlayer "a" "pa" "Alice") "a" with
    players := [createPlayer "a" "pa" "Alice", createPlayer "b" "pb" "Bob"]
    gameState := GamePhase.playing
    currentCategory := some "영화"
    liarId := some "a"
    word := some "사과"
    turn := some "a" }

/-- Registry after the round started. -/
def demoRegistry3 : Rooms := [("R", demoRoom3)]

/-- **C10 witness**: after create → join → startGame (a reachable
registry over the demo catalog) the playing room's word is non-null and
`submitLiarGuess` cannot fault on it. -/
theorem reachable_word_nonnull_witness :
    demoRoom3.gameState = GamePhase.playing ∧
    demoRoom3.word ≠ none ∧
    (submitLiarGuessRoom demoRoom3 "a" "guess").isSome = true := by
  have hgood : ∀ c ws, demoCatalog c = some ws → ws ≠ [] := by
    intro c ws hc
    unfold demoCatalog at hc
    split at hc
    · injection hc with hc
      subst hc
      simp
    · split at hc
      · injection hc with hc
        subst hc
        simp
      · exact absurd hc (by simp)
  have h1 : step demoCatalog allConnected [] (Intent.createRoom "R" "pa" "a" "Alice")
      = some (demoRegistry1, [Effect.timerStop "R", Effect.roomCreated "a"]) := by
    decide
  have h2 : step demoCatalog allConnected demoRegistry1
        (Intent.joinRoom "R" "pb" "b" "Bob")
      = some (demoRegistry2, [Effect.updateRoom "R"]) := by
    decide
  have h3 : step demoCatalog allConnected demoRegistry2
        (Intent.startGame "R" "a" 0 0 0 0 0)
      = some (demoRegistry3,
          [Effect.timerStop "R",
           Effect.gameStarted "a" "Liar" "영화" none,
           Effect.gameStarted "b" "Citizen" "영화" (some "사과"),
           Effect.timerStart "R" HINT_TIMER_DURATION,
           Effect.updateRoom "R"]) := by
    decide
  have hreach : Reachable demoCatalog demoRegistry3 :=
    Reachable.next (Reachable.next (Reachable.next Reachable.init h1) h2) h3
  have hmain := reachable_word_nonnull demoCatalog hgood demoRegistry3 hreach
    ("R", demoRoom3) (by decide)
  exact ⟨rfl, hmain.1 (Or.inl rfl), hmain.2 "a" "guess"⟩
